import Mathlib

/-!
Shallow embedding of the core of the `libusb_uvc` user-space UVC driver
(`src/libusb_uvc/__init__.py`), together with theorems settling the
specification claims about frame-interval negotiation, PROBE/COMMIT buffer
construction, alternate-setting selection, descriptor parsing, signed-range
inference, raw control writes and the frame-stream assembler.

Machine integers are modelled as `Nat`/`Int` (bytes are `Nat` values `< 256`
where it matters); Python floats used for frame rates and tolerances are
modelled as `ℚ`; fallible operations return `Option`/`Except`.
-/

namespace LibusbUVC

/-! ### Small helpers mirroring Python built-ins -/

/-- Python's `min(xs, key=key)`: the first element attaining the minimal key
(later elements replace the current best only on a strictly smaller key). -/
def pyMinBy {α : Type} (key : α → ℤ) (xs : List α) : Option α :=
  xs.foldl
    (fun acc x =>
      match acc with
      | none => some x
      | some b => if key x < key b then some x else some b)
    none

/-- Python's `max(xs, key=key)`: the first element attaining the maximal key. -/
def pyMaxBy {α : Type} (key : α → ℤ) (xs : List α) : Option α :=
  xs.foldl
    (fun acc x =>
      match acc with
      | none => some x
      | some b => if key b < key x then some x else some b)
    none

/-- Python's `round` on a non-negative value: round-half-to-even. -/
def roundHalfEven (q : ℚ) : ℤ :=
  let f := ⌊q⌋
  let r := q - (f : ℚ)
  if r < 1/2 then f
  else if (1:ℚ)/2 < r then f + 1
  else if f % 2 = 0 then f else f + 1

/-- `int.from_bytes(data, "little")` on a little-endian byte list. -/
def leBytesToNat : List ℕ → ℕ
  | [] => 0
  | b :: rest => b + 256 * leBytesToNat rest

/-! ### Frame descriptors and interval selection (`FrameInfo.pick_interval`) -/

/-- `_interval_to_hz`: convert a frame interval in 100 ns units to Hz. -/
def intervalToHz (interval100ns : ℤ) : ℚ :=
  if interval100ns = 0 then 0 else (10^7 : ℚ) / (interval100ns : ℚ)

/-- `FrameInfo` dataclass (the fields used by negotiation). -/
structure FrameInfo where
  frame_index : ℕ
  width : ℕ
  height : ℕ
  default_interval : ℤ
  intervals_100ns : List ℤ
  max_frame_size : ℕ
deriving DecidableEq, Repr

/-- `FrameInfo.pick_interval`: choose the advertised interval whose 100 ns tick
count is closest to `round(1e7 / target_fps)`; in strict mode raise
(`Except.error`) when the chosen interval's rate deviates from the requested
rate by more than `tolerance_hz`. -/
def FrameInfo.pick_interval (f : FrameInfo) (target_fps : Option ℚ)
    (strict : Bool) (tolerance_hz : ℚ) : Except Unit ℤ :=
  if f.intervals_100ns = [] then .ok f.default_interval
  else
    match target_fps with
    | none => .ok (if f.default_interval = 0 then f.intervals_100ns.headD 0 else f.default_interval)
    | some fps =>
      if fps ≤ 0 then
        .ok (if f.default_interval = 0 then f.intervals_100ns.headD 0 else f.default_interval)
      else
        let target := roundHalfEven ((10^7 : ℚ) / fps)
        match pyMinBy (fun v => |v - target|) f.intervals_100ns with
        | none => .ok f.default_interval
        | some best =>
          if strict then
            if tolerance_hz < |intervalToHz best - fps| then .error ()
            else .ok best
          else .ok best

/-! ### Facts about `pyMinBy` / `pyMaxBy` -/

theorem pyMinBy_loop_spec {α : Type} (key : α → ℤ) (xs : List α) (b : α) :
    ∀ r, xs.foldl
        (fun acc x =>
          match acc with
          | none => some x
          | some c => if key x < key c then some x else some c)
        (some b) = some r →
      (r ∈ xs ∨ r = b) ∧ key r ≤ key b ∧ ∀ x ∈ xs, key r ≤ key x := by
  induction xs generalizing b with
  | nil =>
    intro r hr
    simp at hr
    subst hr
    simp
  | cons x xs ih =>
    intro r hr
    simp only [List.foldl_cons] at hr
    by_cases hx : key x < key b
    · simp only [hx, if_pos] at hr
      obtain ⟨hmem, hle, hall⟩ := ih x r hr
      refine ⟨?_, ?_, ?_⟩
      · rcases hmem with h | h
        · exact Or.inl (List.mem_cons_of_mem _ h)
        · exact Or.inl (h ▸ List.mem_cons_self _ _)
      · exact le_trans hle (le_of_lt hx)
      · intro y hy
        rcases List.mem_cons.mp hy with h | h
        · exact h ▸ hle
        · exact hall y h
    · simp only [hx, if_neg, if_false] at hr
      obtain ⟨hmem, hle, hall⟩ := ih b r hr
      refine ⟨?_, hle, ?_⟩
      · rcases hmem with h | h
        · exact Or.inl (List.mem_cons_of_mem _ h)
        · exact Or.inr h
      · intro y hy
        rcases List.mem_cons.mp hy with h | h
        · exact h ▸ le_trans hle (not_lt.mp hx)
        · exact hall y h

theorem pyMinBy_spec {α : Type} (key : α → ℤ) (xs : List α) (hne : xs ≠ []) :
    ∃ r, pyMinBy key xs = some r ∧ r ∈ xs ∧ ∀ x ∈ xs, key r ≤ key x := by
  cases xs with
  | nil => exact absurd rfl hne
  | cons x xs =>
    unfold pyMinBy
    simp only [List.foldl_cons]
    have hrun : ∃ r, xs.foldl
        (fun acc y =>
          match acc with
          | none => some y
          | some c => if key y < key c then some y else some c)
        (some x) = some r := by
      clear hne
      induction xs generalizing x with
      | nil => exact ⟨x, rfl⟩
      | cons y ys ih =>
        simp only [List.foldl_cons]
        by_cases h : key y < key x
        · simpa [h] using ih y
        · simpa [h] using ih x
    obtain ⟨r, hr⟩ := hrun
    obtain ⟨hmem, hle, hall⟩ := pyMinBy_loop_spec key xs x r hr
    refine ⟨r, hr, ?_, ?_⟩
    · rcases hmem with h | h
      · exact List.mem_cons_of_mem _ h
      · exact h ▸ List.mem_cons_self _ _
    · intro y hy
      rcases List.mem_cons.mp hy with h | h
      · exact h ▸ hle
      · exact hall y h

theorem pyMaxBy_loop_spec {α : Type} (key : α → ℤ) (xs : List α) (b : α) :
    ∀ r, xs.foldl
        (fun acc x =>
          match acc with
          | none => some x
          | some c => if key c < key x then some x else some c)
        (some b) = some r →
      (r ∈ xs ∨ r = b) ∧ key b ≤ key r ∧ ∀ x ∈ xs, key x ≤ key r := by
  induction xs generalizing b with
  | nil =>
    intro r hr
    simp at hr
    subst hr
    simp
  | cons x xs ih =>
    intro r hr
    simp only [List.foldl_cons] at hr
    by_cases hx : key b < key x
    · simp only [hx, if_pos] at hr
      obtain ⟨hmem, hle, hall⟩ := ih x r hr
      refine ⟨?_, le_trans (le_of_lt hx) hle, ?_⟩
      · rcases hmem with h | h
        · exact Or.inl (List.mem_cons_of_mem _ h)
        · exact Or.inl (h ▸ List.mem_cons_self _ _)
      · intro y hy
        rcases List.mem_cons.mp hy with h | h
        · exact h ▸ hle
        · exact hall y h
    · simp only [hx, if_neg, if_false] at hr
      obtain ⟨hmem, hle, hall⟩ := ih b r hr
      refine ⟨?_, hle, ?_⟩
      · rcases hmem with h | h
        · exact Or.inl (List.mem_cons_of_mem _ h)
        · exact Or.inr h
      · intro y hy
        rcases List.mem_cons.mp hy with h | h
        · exact h ▸ le_trans (not_lt.mp hx) hle
        · exact hall y h

theorem pyMaxBy_spec {α : Type} (key : α → ℤ) (xs : List α) (hne : xs ≠ []) :
    ∃ r, pyMaxBy key xs = some r ∧ r ∈ xs ∧ ∀ x ∈ xs, key x ≤ key r := by
  cases xs with
  | nil => exact absurd rfl hne
  | cons x xs =>
    unfold pyMaxBy
    simp only [List.foldl_cons]
    have hrun : ∃ r, xs.foldl
        (fun acc y =>
          match acc with
          | none => some y
          | some c => if key c < key y then some y else some c)
        (some x) = some r := by
      clear hne
      induction xs generalizing x with
      | nil => exact ⟨x, rfl⟩
      | cons y ys ih =>
        simp only [List.foldl_cons]
        by_cases h : key x < key y
        · simpa [h] using ih y
        · simpa [h] using ih x
    obtain ⟨r, hr⟩ := hrun
    obtain ⟨hmem, hle, hall⟩ := pyMaxBy_loop_spec key xs x r hr
    refine ⟨r, hr, ?_, ?_⟩
    · rcases hmem with h | h
      · exact List.mem_cons_of_mem _ h
      · exact h ▸ List.mem_cons_self _ _
    · intro y hy
      rcases List.mem_cons.mp hy with h | h
      · exact h ▸ hle
      · exact hall y h

/-! ### C1: frame-rate selection -/

/-- The demonstration frame of the spec's interval-selection scenario:
advertised intervals {333333, 666666, 1000000} (30/15/10 Hz). -/
def demoFrame : FrameInfo :=
  { frame_index := 1, width := 640, height := 480, default_interval := 333333,
    intervals_100ns := [333333, 666666, 1000000], max_frame_size := 614400 }

/-- C1: for every frame with a non-empty advertised interval list and every
requested fps > 0, `pick_interval` returns an advertised interval closest in
100 ns ticks to `round(1e7/fps)`; in strict mode, when the rate of that closest
interval deviates from the requested fps by more than the tolerance, the
request is rejected (`Except.error`) instead of selected.  For the spec's
scenario (intervals {333333, 666666, 1000000}, fps = 14) the non-strict result
is 666666. -/
theorem pick_interval_selects_closest :
    (∀ (f : FrameInfo) (fps tol : ℚ), f.intervals_100ns ≠ [] → 0 < fps →
      ∃ best, f.pick_interval (some fps) false tol = .ok best ∧
        best ∈ f.intervals_100ns ∧
        (∀ w ∈ f.intervals_100ns,
          |best - roundHalfEven ((10^7 : ℚ) / fps)| ≤
            |w - roundHalfEven ((10^7 : ℚ) / fps)|) ∧
        (tol < |intervalToHz best - fps| →
          f.pick_interval (some fps) true tol = .error ())) ∧
    demoFrame.pick_interval (some 14) false (1/1000) = .ok 666666 := by
  constructor
  · intro f fps tol hne hfps
    obtain ⟨best, hbest, hmem, hmin⟩ :=
      pyMinBy_spec (fun v => |v - roundHalfEven ((10^7 : ℚ) / fps)|) f.intervals_100ns hne
    refine ⟨best, ?_, hmem, hmin, ?_⟩
    · simp [FrameInfo.pick_interval, hne, not_le.mpr hfps, hbest]
    · intro hdev
      simp [FrameInfo.pick_interval, hne, not_le.mpr hfps, hbest, hdev]
  · have htarget : roundHalfEven ((10^7 : ℚ) / 14) = 714286 := by
      have hfloor : ⌊(10^7 : ℚ) / 14⌋ = 714285 := by norm_num
      unfold roundHalfEven
      rw [hfloor]
      norm_num
    simp only [FrameInfo.pick_interval, demoFrame, pyMinBy, List.foldl, htarget]
    norm_num
    decide

/-- Witness for `pick_interval_selects_closest` at the concrete demo frame,
fps = 14 and the default tolerance. -/
theorem pick_interval_selects_closest_witness :
    ∃ best, demoFrame.pick_interval (some 14) false (1/1000) = .ok best ∧
      best ∈ demoFrame.intervals_100ns ∧
      (∀ w ∈ demoFrame.intervals_100ns,
        |best - roundHalfEven ((10^7 : ℚ) / 14)| ≤
          |w - roundHalfEven ((10^7 : ℚ) / 14)|) ∧
      (1/1000 < |intervalToHz best - 14| →
        demoFrame.pick_interval (some 14) true (1/1000) = .error ()) :=
  pick_interval_selects_closest.1 demoFrame 14 (1/1000)
    (by decide) (by norm_num)

/-! ### C8: signed-range inference (`UVCControlsManager._initialise`) -/

/-- `int.from_bytes(data, "little", signed=signed)`: little-endian
interpretation with optional two's-complement sign. -/
def bytesToIntLE (data : List ℕ) (signed : Bool) : ℤ :=
  let u : ℤ := leBytesToNat data
  if signed ∧ 2 ^ (8 * data.length - 1) ≤ leBytesToNat data then
    u - 2 ^ (8 * data.length)
  else u

/-- `_bytes_to_int`: `None` on an empty buffer or one longer than 4 bytes. -/
def bytes_to_int (data : List ℕ) (signed : Bool) : Option ℤ :=
  if data = [] then none
  else if 4 < data.length then none
  else some (bytesToIntLE data signed)

/-- `_should_use_signed`: trigger the signed reinterpretation when both raw
bounds exist, have equal length 2 or 4, and the unsigned minimum exceeds the
unsigned maximum. -/
def shouldUseSigned (min_raw max_raw : List ℕ) : Bool :=
  if min_raw = [] ∨ max_raw = [] then false
  else if min_raw.length ≠ max_raw.length then false
  else if min_raw.length ≠ 2 ∧ min_raw.length ≠ 4 then false
  else decide (leBytesToNat max_raw < leBytesToNat min_raw)

theorem leBytesToNat_lt (l : List ℕ) (h : ∀ b ∈ l, b < 256) :
    leBytesToNat l < 256 ^ l.length := by
  induction l with
  | nil => simp [leBytesToNat]
  | cons b rest ih =>
    have hb : b < 256 := h b (List.mem_cons_self _ _)
    have hrest : leBytesToNat rest < 256 ^ rest.length :=
      ih (fun x hx => h x (List.mem_cons_of_mem _ hx))
    simp only [leBytesToNat, List.length_cons, pow_succ]
    have hpos : 1 ≤ 256 ^ rest.length := Nat.one_le_pow _ _ (by norm_num)
    generalize 256 ^ rest.length = P at hrest hpos ⊢
    omega

/-- C8 counterexample: `min_raw = FF FF` (unsigned 65535, signed −1) and
`max_raw = FE FF` (unsigned 65534, signed −2) trigger the signed
reinterpretation, yet the signed minimum exceeds the signed maximum. -/
theorem shouldUseSigned_not_ordered_counterexample :
    shouldUseSigned [255, 255] [254, 255] = true ∧
      ¬ bytesToIntLE [255, 255] true ≤ bytesToIntLE [254, 255] true := by
  constructor
  · decide
  · decide

/-- C8 amended: when the signed reinterpretation is triggered AND the two raw
buffers lie on opposite sides of the sign boundary (minimum has its top bit
set, maximum does not), the signed values are correctly ordered:
signed minimum < 0 ≤ signed maximum. -/
theorem shouldUseSigned_orders_signed_values
    (min_raw max_raw : List ℕ)
    (hminb : ∀ b ∈ min_raw, b < 256)
    (hlen : min_raw.length = max_raw.length)
    (hlen24 : min_raw.length = 2 ∨ min_raw.length = 4)
    (hmintop : 2 ^ (8 * min_raw.length - 1) ≤ leBytesToNat min_raw)
    (hmaxtop : leBytesToNat max_raw < 2 ^ (8 * max_raw.length - 1)) :
    shouldUseSigned min_raw max_raw = true ∧
      bytesToIntLE min_raw true ≤ bytesToIntLE max_raw true := by
  have hne1 : min_raw ≠ [] := by
    intro h
    rw [h] at hmintop
    simp [leBytesToNat] at hmintop
  have hne2 : max_raw ≠ [] := by
    intro h
    rw [h] at hlen
    simp at hlen
    exact hne1 hlen
  have hUlt : leBytesToNat max_raw < leBytesToNat min_raw := by
    have h1 : leBytesToNat max_raw < 2 ^ (8 * max_raw.length - 1) := hmaxtop
    rw [← hlen] at h1
    exact lt_of_lt_of_le h1 hmintop
  constructor
  · unfold shouldUseSigned
    rw [if_neg (by simp [hne1, hne2]), if_neg (by simp [hlen]),
      if_neg (by rcases hlen24 with h | h <;> simp [h]),
      decide_eq_true_eq]
    exact hUlt
  · have hmin_lt : (leBytesToNat min_raw : ℤ) < 2 ^ (8 * min_raw.length) := by
      have := leBytesToNat_lt min_raw hminb
      have h256 : (256 : ℕ) ^ min_raw.length = 2 ^ (8 * min_raw.length) := by
        rw [show (256 : ℕ) = 2 ^ 8 by norm_num, ← pow_mul]
      exact_mod_cast h256 ▸ this
    have hmaxsigned : bytesToIntLE max_raw true = (leBytesToNat max_raw : ℤ) := by
      unfold bytesToIntLE
      rw [if_neg]
      simp only [not_and, not_le]
      intro
      exact hmaxtop
    have hminsigned : bytesToIntLE min_raw true =
        (leBytesToNat min_raw : ℤ) - 2 ^ (8 * min_raw.length) := by
      unfold bytesToIntLE
      rw [if_pos ⟨rfl, hmintop⟩]
    rw [hmaxsigned, hminsigned]
    have h0 : (0 : ℤ) ≤ (leBytesToNat max_raw : ℤ) := by positivity
    omega

/-- Witness for `shouldUseSigned_orders_signed_values` at
`min_raw = 00 80` (−32768) and `max_raw = FF 7F` (32767). -/
theorem shouldUseSigned_orders_signed_values_witness :
    shouldUseSigned [0, 128] [255, 127] = true ∧
      bytesToIntLE [0, 128] true ≤ bytesToIntLE [255, 127] true :=
  shouldUseSigned_orders_signed_values [0, 128] [255, 127]
    (by decide) (by decide) (by decide) (by decide) (by decide)

/-! ### C9: `UVCCamera.set_control` with raw byte values -/

/-- The fields of a resolved `ControlEntry` consulted by `set_control`. -/
structure ControlEntry where
  interface_number : ℕ
  unit_id : ℕ
  selector : ℕ
  length : Option ℕ
  minimum : Option ℤ
  raw_minimum : Option (List ℕ)
  raw_maximum : Option (List ℕ)
  raw_default : Option (List ℕ)
deriving DecidableEq, Repr

/-- A value passed to `set_control`: a Python `int` or a bytes-like object. -/
inductive ControlValue
  | int (v : ℤ)
  | bytes (b : List ℕ)
deriving DecidableEq, Repr

/-- Failures `set_control` can raise before any device write. -/
inductive SetControlError
  | typeError
  | overflowError
deriving DecidableEq, Repr

/-- `int(value).to_bytes(n, "little", signed=signed)`: the little-endian
encoding, or `OverflowError` when the value does not fit in `n` bytes. -/
def intToLEBytes (v : ℤ) (n : ℕ) (signed : Bool) : Except SetControlError (List ℕ) :=
  if signed then
    if -(2 ^ (8 * n - 1)) ≤ v ∧ v < 2 ^ (8 * n - 1) then
      .ok ((List.range n).map (fun i => ((v % 2 ^ (8 * n)) / 2 ^ (8 * i) % 256).toNat))
    else .error .overflowError
  else
    if 0 ≤ v ∧ v < 2 ^ (8 * n) then
      .ok ((List.range n).map (fun i => (v / 2 ^ (8 * i) % 256).toNat))
    else .error .overflowError

/-- `UVCCamera.set_control` after control resolution: on success the returned
byte list is the payload handed to `write_vc_control` (the device write); an
error means no write takes place. -/
def set_control (entry : ControlEntry) (value : ControlValue) (raw : Bool) :
    Except SetControlError (List ℕ) :=
  if raw then
    match value with
    | .bytes b => .ok b
    | .int _ => .error .typeError
  else
    match value with
    | .bytes _ => .error .typeError
    | .int v =>
      let length :=
        match entry.length with
        | some l => if l ≠ 0 then l else 0
        | none => 0
      let length :=
        if length = 0 then
          match entry.raw_default with
          | some d => if d ≠ [] then d.length else 0
          | none => 0
        else length
      let length :=
        if length = 0 then
          match entry.raw_maximum with
          | some m => if m ≠ [] then m.length else 0
          | none => 0
        else length
      let length :=
        if length = 0 then
          match entry.raw_minimum with
          | some m => if m ≠ [] then m.length else 0
          | none => 0
        else length
      let length := if length = 0 then 2 else length
      let signed : Bool :=
        match entry.minimum with
        | some m => decide (m < 0)
        | none => false
      intToLEBytes v (max 1 length) signed

/-- A control entry with an authoritative 2-byte length, as produced by
validation for a typical Processing Unit control. -/
def demoEntry : ControlEntry :=
  { interface_number := 0, unit_id := 2, selector := 2, length := some 2,
    minimum := some 0, raw_minimum := some [0, 0], raw_maximum := some [255, 0],
    raw_default := some [128, 0] }

/-- C9 counterexample: with `raw=true` and a 3-byte value against an entry of
stored length 2, `set_control` performs the device write with the 3-byte
payload verbatim (`Except.ok`), instead of failing with `ValueOutOfBounds`
without a write. -/
theorem set_control_raw_no_length_check_counterexample :
    set_control demoEntry (.bytes [1, 2, 3]) true = .ok [1, 2, 3] ∧
      ([1, 2, 3] : List ℕ).length ≠ 2 ∧ demoEntry.length = some 2 := by
  refine ⟨rfl, by decide, rfl⟩

/-- C9 amended: the raw path performs no length validation at all — any
bytes-like value is written verbatim whatever the entry's stored length, and
the only raw-mode failure is a `TypeError` for a non-bytes value. -/
theorem set_control_raw_writes_verbatim (entry : ControlEntry) (b : List ℕ) (v : ℤ) :
    set_control entry (.bytes b) true = .ok b ∧
      set_control entry (.int v) true = .error .typeError := by
  exact ⟨rfl, rfl⟩

/-! ### C7: Processing Unit descriptor parsing (`_parse_processing_unit`) -/

/-- `UVC_CONTROL_MAPPING["Processing Unit"]` with its
`Unknown Control Selector N` fallback. -/
def puControlName (selector : ℕ) : String :=
  match selector with
  | 1 => "Backlight Compensation"
  | 2 => "Brightness"
  | 3 => "Contrast"
  | 4 => "Gain"
  | 5 => "Power Line Frequency"
  | 6 => "Hue"
  | 7 => "Saturation"
  | 8 => "Sharpness"
  | 9 => "Gamma"
  | 10 => "White Balance Temperature"
  | 11 => "White Balance Temperature, Auto"
  | s => "Unknown Control Selector " ++ toString s

/-- A parsed control: selector plus human-readable name. -/
structure UVCControl where
  selector : ℕ
  name : String
deriving DecidableEq, Repr

/-- `_parse_processing_unit`: `bControlSize` at offset 7, `bmControls` at
offset 8 for `bControlSize` bytes (little-endian); every set bit `i` yields
selector `i + 1`. -/
def parseProcessingUnit (desc : List ℕ) : Option (ℕ × List UVCControl) :=
  if desc.length < 10 then none
  else
    let unit_id := desc.getD 3 0
    let bControlSize := desc.getD 7 0
    let ctrlEnd := 8 + bControlSize
    let controls :=
      if 0 < bControlSize ∧ ctrlEnd ≤ desc.length then
        let bitmap := leBytesToNat ((desc.drop 8).take bControlSize)
        (List.range (8 * bControlSize)).filterMap
          (fun i =>
            if bitmap.testBit i then some ⟨i + 1, puControlName (i + 1)⟩ else none)
      else []
    some (unit_id, controls)

/-- The spec scenario's Processing Unit descriptor: `bControlSize = 3`,
`bmControls = 0x00000FC7` (bytes C7 0F 00). -/
def demoPUDesc : List ℕ := [13, 36, 5, 2, 1, 0, 0, 3, 199, 15, 0, 0, 0]

/-- C7 counterexample: bitmap 0x00000FC7 has bits {0,1,2,6,7,8,9,10,11} set,
so the parsed selectors are {1,2,3,7,8,9,10,11,12} — not the claimed
{1,2,3,6,7,8,9,10,11}. -/
theorem parseProcessingUnit_selector_counterexample :
    (parseProcessingUnit demoPUDesc).map (fun p => p.2.map (fun c => c.selector)) =
        some [1, 2, 3, 7, 8, 9, 10, 11, 12] ∧
      ([1, 2, 3, 7, 8, 9, 10, 11, 12] : List ℕ) ≠ [1, 2, 3, 6, 7, 8, 9, 10, 11] := by
  constructor
  · rfl
  · decide

/-- C7 amended: parsing the Processing Unit with `bControlSize = 3`,
`bmControls = 0x00000FC7` exposes exactly selectors {1,2,3,7,8,9,10,11,12}
(each set bit `i` producing selector `i+1`) named "Backlight Compensation",
"Brightness", "Contrast", "Saturation", "Sharpness", "Gamma",
"White Balance Temperature", "White Balance Temperature, Auto" and
"Unknown Control Selector 12". -/
theorem parseProcessingUnit_demo :
    parseProcessingUnit demoPUDesc =
      some (2,
        [⟨1, "Backlight Compensation"⟩, ⟨2, "Brightness"⟩, ⟨3, "Contrast"⟩,
         ⟨7, "Saturation"⟩, ⟨8, "Sharpness"⟩, ⟨9, "Gamma"⟩,
         ⟨10, "White Balance Temperature"⟩, ⟨11, "White Balance Temperature, Auto"⟩,
         ⟨12, "Unknown Control Selector 12"⟩]) := by
  rfl

/-! ### C6: Extension Unit descriptor parsing (`_parse_extension_unit`) -/

/-- The byte order in which `_parse_extension_unit` renders the 16-byte GUID
(hex groups `3210-54-76-89-abcdef`). -/
def xuGuidRendered (g : List ℕ) : List ℕ :=
  [g.getD 3 0, g.getD 2 0, g.getD 1 0, g.getD 0 0,
   g.getD 5 0, g.getD 4 0,
   g.getD 7 0, g.getD 6 0,
   g.getD 8 0, g.getD 9 0,
   g.getD 10 0, g.getD 11 0, g.getD 12 0, g.getD 13 0, g.getD 14 0, g.getD 15 0]

/-- The GUID byte order the spec describes, stated in the spec's words: the
first three groups little-endian (reversed), the remaining bytes in order. -/
def specGuidMixedEndian (g : List ℕ) : List ℕ :=
  (g.take 4).reverse ++ ((g.drop 4).take 2).reverse ++ ((g.drop 6).take 2).reverse ++ g.drop 8

/-- The selector set the spec describes for an Extension Unit, stated in the
spec's words: `{i+1 : bit i set in bmControls}` for
`0 ≤ i < max(bNumControls, 8*bControlSize)`. -/
def specXUSelectors (bNumControls bControlSize bitmap : ℕ) : List ℕ :=
  (List.range (max bNumControls (8 * bControlSize))).filterMap
    (fun i => if bitmap.testBit i then some (i + 1) else none)

/-- Offset of `bControlSize` in an Extension Unit descriptor:
`22 + bNrInPins` (with `bNrInPins` at offset 21). -/
def xuControlSizeOffset (desc : List ℕ) : ℕ := 22 + desc.getD 21 0

/-- The `bmControls` bitmap of an Extension Unit descriptor: `bControlSize`
bytes starting right after `bControlSize`, truncated at the end of the
descriptor, interpreted little-endian. -/
def xuBitmap (desc : List ℕ) : ℕ :=
  let csOff := xuControlSizeOffset desc
  let bControlSize := desc.getD csOff 0
  let controlsOff := csOff + 1
  let controlsEnd := min (controlsOff + bControlSize) desc.length
  leBytesToNat ((desc.drop controlsOff).take (controlsEnd - controlsOff))

/-- The `for index in range(max_bits)` loop of `_parse_extension_unit`: break
as soon as `bNumControls` is non-zero and the index reaches it, emit
`index + 1` for every set bitmap bit. -/
def xuSelectorLoop (bNum bitmap : ℕ) : ℕ → ℕ → List ℕ
  | _, 0 => []
  | i, fuel + 1 =>
    if bNum ≠ 0 ∧ bNum ≤ i then []
    else (if bitmap.testBit i then [i + 1] else []) ++ xuSelectorLoop bNum bitmap (i + 1) fuel

/-- The result of `_parse_extension_unit`. -/
structure ExtensionUnitParse where
  unit_id : ℕ
  guidRendered : List ℕ
  selectors : List ℕ
deriving DecidableEq, Repr

/-- `_parse_extension_unit`: reject descriptors shorter than 24 bytes, read
the GUID at offsets 4..20, `bNumControls` at 20, `bNrInPins` at 21,
`bControlSize` at `22 + bNrInPins`, and emit selectors from the bitmap. -/
def parseExtensionUnit (desc : List ℕ) : Option ExtensionUnitParse :=
  if desc.length < 24 then none
  else
    let unit_id := desc.getD 3 0
    let guid := (desc.drop 4).take 16
    let bNumControls := desc.getD 20 0
    let csOff := xuControlSizeOffset desc
    if desc.length ≤ csOff then
      some { unit_id := unit_id, guidRendered := xuGuidRendered guid, selectors := [] }
    else
      let bControlSize := desc.getD csOff 0
      let maxBits := max bNumControls (8 * bControlSize)
      some { unit_id := unit_id, guidRendered := xuGuidRendered guid,
             selectors := xuSelectorLoop bNumControls (xuBitmap desc) 0 maxBits }

/-- A 24-byte Extension Unit descriptor with `bNumControls = 1`,
`bNrInPins = 0`, `bControlSize = 1` and `bmControls = 0x02` (only bit 1 set). -/
def demoXUDesc : List ℕ :=
  [24, 36, 6, 1,
   0, 0, 0, 0, 0, 0, 0, 0, 0, 0, 0, 0, 0, 0, 0, 0,
   1, 0, 1, 2]

/-- C6 counterexample: with `bNumControls = 1` and `bControlSize = 1`, the
claimed bound `max(bNumControls, 8*bControlSize) = 8` would make bit 1 yield
selector 2, but the code breaks at `bNumControls = 1` and emits nothing. -/
theorem parseExtensionUnit_bound_counterexample :
    (parseExtensionUnit demoXUDesc).map (fun u => u.selectors) = some [] ∧
      specXUSelectors 1 1 2 = [2] ∧ ([] : List ℕ) ≠ [2] := by
  refine ⟨rfl, by decide, by decide⟩

theorem xuSelectorLoop_bNum_zero (bitmap : ℕ) :
    ∀ fuel i, xuSelectorLoop 0 bitmap i fuel =
      (List.range' i fuel).filterMap
        (fun j => if bitmap.testBit j then some (j + 1) else none) := by
  intro fuel
  induction fuel with
  | zero => intro i; rfl
  | succ n ih =>
    intro i
    show (if (0 : ℕ) ≠ 0 ∧ 0 ≤ i then []
        else (if bitmap.testBit i then [i + 1] else []) ++ xuSelectorLoop 0 bitmap (i + 1) n) = _
    rw [if_neg (by simp)]
    rw [List.range'_succ, List.filterMap_cons, ih (i + 1)]
    by_cases hb : bitmap.testBit i <;> simp [hb]

theorem xuSelectorLoop_bNum_pos (bNum bitmap : ℕ) (hb : bNum ≠ 0) :
    ∀ fuel i, xuSelectorLoop bNum bitmap i fuel =
      (List.range' i (min fuel (bNum - i))).filterMap
        (fun j => if bitmap.testBit j then some (j + 1) else none) := by
  intro fuel
  induction fuel with
  | zero => intro i; simp [xuSelectorLoop]
  | succ n ih =>
    intro i
    show (if bNum ≠ 0 ∧ bNum ≤ i then []
        else (if bitmap.testBit i then [i + 1] else []) ++ xuSelectorLoop bNum bitmap (i + 1) n) = _
    by_cases hle : bNum ≤ i
    · rw [if_pos ⟨hb, hle⟩]
      have : bNum - i = 0 := Nat.sub_eq_zero_of_le hle
      simp [this]
    · rw [if_neg (by simp [hle])]
      have hmin : min (n + 1) (bNum - i) = min n (bNum - (i + 1)) + 1 := by omega
      rw [hmin, List.range'_succ, List.filterMap_cons, ih (i + 1)]
      by_cases hbit : bitmap.testBit i <;> simp [hbit]

theorem xuGuidRendered_eq_spec (g : List ℕ) (hg : g.length = 16) :
    xuGuidRendered g = specGuidMixedEndian g := by
  rcases g with _ | ⟨a0, _ | ⟨a1, _ | ⟨a2, _ | ⟨a3, _ | ⟨a4, _ | ⟨a5, _ | ⟨a6, _ | ⟨a7,
    _ | ⟨a8, _ | ⟨a9, _ | ⟨a10, _ | ⟨a11, _ | ⟨a12, _ | ⟨a13, _ | ⟨a14, _ | ⟨a15,
    g⟩⟩⟩⟩⟩⟩⟩⟩⟩⟩⟩⟩⟩⟩⟩⟩ <;>
    try (exfalso; simp only [List.length_cons, List.length_nil] at hg; omega)
  obtain rfl : g = [] := by
    simp only [List.length_cons, List.length_nil] at hg
    exact List.length_eq_zero.mp (by omega)
  rfl

/-- C6 amended: the emitted selectors are
`{i+1 : bit i set in the bitmap at offset 23 + bNrInPins}` for
`0 ≤ i < bNumControls` when `bNumControls` is non-zero (the loop breaks there)
and for `0 ≤ i < 8*bControlSize` when `bNumControls` is zero — not for the
claimed bound `max(bNumControls, 8*bControlSize)`; when the descriptor ends at
or before the `bControlSize` offset `22 + bNrInPins`, no selectors are
emitted; the GUID is rendered in the mixed-endian layout (first three groups
little-endian, remaining bytes in order). -/
theorem parseExtensionUnit_amended (desc : List ℕ) (u : ExtensionUnitParse)
    (hp : parseExtensionUnit desc = some u) :
    u.guidRendered = specGuidMixedEndian ((desc.drop 4).take 16) ∧
    (xuControlSizeOffset desc < desc.length →
      u.selectors =
        (List.range (if desc.getD 20 0 = 0
            then 8 * desc.getD (xuControlSizeOffset desc) 0
            else desc.getD 20 0)).filterMap
          (fun i => if (xuBitmap desc).testBit i then some (i + 1) else none)) ∧
    (desc.length ≤ xuControlSizeOffset desc → u.selectors = []) := by
  unfold parseExtensionUnit at hp
  by_cases h24 : desc.length < 24
  · simp [h24] at hp
  rw [if_neg h24] at hp
  have hglen : ((desc.drop 4).take 16).length = 16 := by
    simp [List.length_take, List.length_drop]
    omega
  by_cases hoff : desc.length ≤ xuControlSizeOffset desc
  · rw [if_pos hoff] at hp
    obtain rfl : _ = u := Option.some_injective _ hp
    refine ⟨xuGuidRendered_eq_spec _ hglen, ?_, fun _ => rfl⟩
    intro hlt
    omega
  · rw [if_neg hoff] at hp
    obtain rfl : _ = u := Option.some_injective _ hp
    refine ⟨xuGuidRendered_eq_spec _ hglen, ?_, fun hle => absurd hle hoff⟩
    intro _
    show xuSelectorLoop (desc.getD 20 0) (xuBitmap desc) 0
        (max (desc.getD 20 0) (8 * desc.getD (xuControlSizeOffset desc) 0)) = _
    by_cases hz : desc.getD 20 0 = 0
    · rw [hz, if_pos rfl, xuSelectorLoop_bNum_zero]
      have hsup : (0 : ℕ) ⊔ 8 * desc.getD (xuControlSizeOffset desc) 0
          = 8 * desc.getD (xuControlSizeOffset desc) 0 := by omega
      rw [hsup, List.range_eq_range']
    · rw [if_neg hz]
      rw [xuSelectorLoop_bNum_pos _ _ hz]
      have hmin : min (max (desc.getD 20 0) (8 * desc.getD (xuControlSizeOffset desc) 0))
          (desc.getD 20 0 - 0) = desc.getD 20 0 := by omega
      rw [hmin]
      simp [List.range_eq_range']

/-- Witness for `parseExtensionUnit_amended`: a 25-byte descriptor with
`bNumControls = 0`, `bNrInPins = 0`, `bControlSize = 2`, bitmap `03 01`. -/
theorem parseExtensionUnit_amended_witness :
    (parseExtensionUnit
        [25, 36, 6, 7,
         1, 2, 3, 4, 5, 6, 7, 8, 9, 10, 11, 12, 13, 14, 15, 16,
         0, 0, 2, 3, 1] = some
      { unit_id := 7,
        guidRendered := [4, 3, 2, 1, 6, 5, 8, 7, 9, 10, 11, 12, 13, 14, 15, 16],
        selectors := [1, 2, 9] }) ∧
      ([4, 3, 2, 1, 6, 5, 8, 7, 9, 10, 11, 12, 13, 14, 15, 16] : List ℕ) =
        specGuidMixedEndian [1, 2, 3, 4, 5, 6, 7, 8, 9, 10, 11, 12, 13, 14, 15, 16] := by
  have h := parseExtensionUnit_amended
    [25, 36, 6, 7, 1, 2, 3, 4, 5, 6, 7, 8, 9, 10, 11, 12, 13, 14, 15, 16, 0, 0, 2, 3, 1]
    { unit_id := 7,
      guidRendered := [4, 3, 2, 1, 6, 5, 8, 7, 9, 10, 11, 12, 13, 14, 15, 16],
      selectors := [1, 2, 9] } (by rfl)
  exact ⟨by rfl, by simpa using h.1⟩

/-! ### C3 and C5: PROBE/COMMIT buffer construction
(`_perform_probe_commit_with_length`) -/

/-- Byte `i` of the little-endian encoding of `v`. -/
def intLEByte (v : ℤ) (i : ℕ) : ℕ := ((v / (256 ^ i : ℤ)) % 256).toNat

/-- `_set_le_value`: write `size` little-endian bytes of `value` at `offset`,
doing nothing when the write would run past the end of the buffer. -/
def setLEValue (buf : List ℕ) (offset : ℕ) (v : ℤ) (size : ℕ) : List ℕ :=
  if offset + size ≤ buf.length then
    buf.take offset ++ (List.range size).map (intLEByte v) ++ buf.drop (offset + size)
  else buf

/-- The device's answers to the control reads one probe attempt performs:
`GET_CUR(VS_PROBE)` before the write, `GET_DEF(VS_PROBE)`, and
`GET_CUR(VS_PROBE)` after `SET_CUR` (`none` models a failed transfer). -/
structure DeviceResponses where
  getCurProbe : Option (List ℕ)
  getDefProbe : Option (List ℕ)
  getCurAfterSet : Option (List ℕ)
deriving DecidableEq, Repr

/-- The wire-visible outcome of `_perform_probe_commit_with_length`. -/
structure ProbeTranscript where
  template : List ℕ
  sentProbe : List ℕ
  negotiatedBytes : List ℕ
  sentCommit : Option (List ℕ)
deriving DecidableEq, Repr

/-- `_perform_probe_commit_with_length`: read a template (GET_CUR, then
GET_DEF, then all zeros), build the probe payload in a fresh zero buffer,
patch bmHint/bFormatIndex/bFrameIndex and optionally dwFrameInterval, send it,
read back the negotiated block (falling back to the sent payload), and commit
the negotiated bytes verbatim when requested.  The `bm_hint` argument's
initial contribution to `effective_hint` is dead in the source: every branch
overwrites it. -/
def performProbeCommitWithLength (resp : DeviceResponses)
    (format_index frame_index : ℕ) (frame : FrameInfo) (frame_rate : Option ℚ)
    (do_commit : Bool) ( _bm_hint : ℕ) (strict_interval : Bool) (length : ℕ) :
    ProbeTranscript :=
  let template := resp.getCurProbe.getD (resp.getDefProbe.getD (List.replicate length 0))
  let pick : Option ℤ × ℕ :=
    match frame_rate with
    | some fps =>
      if 0 < fps then
        match frame.pick_interval (some fps) strict_interval (1/1000) with
        | .ok v => (some v, 1)
        | .error _ => (none, 0)
      else (none, 0)
    | none => (none, 0)
  let candidate := pick.1
  let effectiveHint := pick.2
  let payload0 := List.replicate length 0
  let p1 := setLEValue payload0 0 (effectiveHint : ℤ) 2
  let p2 := if 2 < length then p1.set 2 format_index else p1
  let p3 := if 3 < length then p2.set 3 frame_index else p2
  let p4 :=
    match candidate with
    | some v => if effectiveHint ≠ 0 then setLEValue p3 4 v 4 else p3
    | none => p3
  let negotiated := resp.getCurAfterSet.getD p4
  { template := template, sentProbe := p4, negotiatedBytes := negotiated,
    sentCommit := if do_commit then some negotiated else none }

theorem setLEValue_length (buf : List ℕ) (off : ℕ) (v : ℤ) (sz : ℕ) :
    (setLEValue buf off v sz).length = buf.length := by
  unfold setLEValue
  split
  · simp only [List.length_append, List.length_take, List.length_map,
      List.length_range, List.length_drop]
    omega
  · rfl

theorem getD_drop_zero (l : List ℕ) (k j : ℕ) :
    (l.drop k).getD j 0 = l.getD (k + j) 0 := by
  simp [List.getD_eq_getElem?_getD, List.getElem?_drop]

theorem setLEValue_getD_of_le (buf : List ℕ) (off : ℕ) (v : ℤ) (sz i : ℕ)
    (h : off + sz ≤ i) : (setLEValue buf off v sz).getD i 0 = buf.getD i 0 := by
  unfold setLEValue
  split
  · next hlen =>
    have hlen1 : (buf.take off ++ (List.range sz).map (intLEByte v)).length = off + sz := by
      simp only [List.length_append, List.length_take, List.length_map, List.length_range]
      omega
    rw [List.append_assoc, ← List.append_assoc]
    rw [List.getD_append_right _ _ _ _ (by omega : (buf.take off ++ (List.range sz).map (intLEByte v)).length ≤ i)]
    rw [hlen1, getD_drop_zero]
    congr 1
    omega
  · rfl

theorem set_getD_ne (l : List ℕ) (j i v : ℕ) (h : j ≠ i) :
    (l.set j v).getD i 0 = l.getD i 0 := by
  simp [List.getD_eq_getElem?_getD, List.getElem?_set, h]

theorem replicate_getD_zero (n i : ℕ) : (List.replicate n (0 : ℕ)).getD i 0 = 0 := by
  simp only [List.getD_eq_getElem?_getD, List.getElem?_replicate]
  split <;> rfl

/-- C3 counterexample: with a 26-byte all-`7` template obtained from GET_CUR
and no requested rate, byte 10 of the template is 7 but byte 10 of the buffer
sent to SET_CUR(VS_PROBE) is 0 — the template bytes are not preserved. -/
theorem probe_payload_ignores_template_counterexample :
    (performProbeCommitWithLength
        ⟨some (List.replicate 26 7), none, none⟩ 1 1 demoFrame none false 1 false 26).template.getD 10 0 = 7 ∧
      (performProbeCommitWithLength
        ⟨some (List.replicate 26 7), none, none⟩ 1 1 demoFrame none false 1 false 26).sentProbe.getD 10 0 = 0 := by
  constructor <;> rfl

/-- C3 amended: the buffer sent via SET_CUR(VS_PROBE) is a fresh zero-filled
buffer of the chosen length in which only the patched fields are written —
bmHint at bytes 0..2, bFormatIndex at byte 2, bFrameIndex at byte 3 and
optionally dwFrameInterval at bytes 4..8; the template obtained from GET_CUR
(or GET_DEF, or zeros) is only logged, never copied: every sent byte at
offset ≥ 8 is zero whatever the template contains. -/
theorem probe_payload_zero_outside_patch (resp : DeviceResponses)
    (format_index frame_index : ℕ) (frame : FrameInfo) (frame_rate : Option ℚ)
    (do_commit : Bool) (bm_hint : ℕ) (strict_interval : Bool) (length i : ℕ)
    (hi : 8 ≤ i) :
    (performProbeCommitWithLength resp format_index frame_index frame frame_rate
        do_commit bm_hint strict_interval length).sentProbe.getD i 0 = 0 ∧
      (performProbeCommitWithLength resp format_index frame_index frame frame_rate
        do_commit bm_hint strict_interval length).sentProbe.length = length := by
  have e1 : ∀ (buf : List ℕ) (v : ℤ), (setLEValue buf 0 v 2)[i]?.getD 0 = buf[i]?.getD 0 :=
    fun buf v => by
      simpa only [List.getD_eq_getElem?_getD] using setLEValue_getD_of_le buf 0 v 2 i (by omega)
  have e2 : ∀ (buf : List ℕ) (v : ℤ), (setLEValue buf 4 v 4)[i]?.getD 0 = buf[i]?.getD 0 :=
    fun buf v => by
      simpa only [List.getD_eq_getElem?_getD] using setLEValue_getD_of_le buf 4 v 4 i (by omega)
  have e3 : ∀ (buf : List ℕ) (v : ℕ), (buf.set 2 v)[i]?.getD 0 = buf[i]?.getD 0 :=
    fun buf v => by
      simpa only [List.getD_eq_getElem?_getD] using set_getD_ne buf 2 i v (by omega)
  have e4 : ∀ (buf : List ℕ) (v : ℕ), (buf.set 3 v)[i]?.getD 0 = buf[i]?.getD 0 :=
    fun buf v => by
      simpa only [List.getD_eq_getElem?_getD] using set_getD_ne buf 3 i v (by omega)
  have e5 : ∀ n : ℕ, (List.replicate n (0 : ℕ))[i]?.getD 0 = 0 := fun n => by
    simpa only [List.getD_eq_getElem?_getD] using replicate_getD_zero n i
  unfold performProbeCommitWithLength
  constructor
  · repeat' split
    all_goals
      simp [e1, e2, e3, e4, e5]
  · repeat' split
    all_goals
      simp [setLEValue_length, List.length_set, List.length_replicate]

/-- Witness for `probe_payload_zero_outside_patch`: byte 10 of the probe
buffer is zero even though the GET_CUR template holds 5 there. -/
theorem probe_payload_zero_outside_patch_witness :
    (performProbeCommitWithLength
        ⟨some (List.replicate 26 5), none, none⟩ 2 3 demoFrame none true 1 false 26).sentProbe.getD 10 0 = 0 ∧
      (performProbeCommitWithLength
        ⟨some (List.replicate 26 5), none, none⟩ 2 3 demoFrame none true 1 false 26).sentProbe.length = 26 :=
  probe_payload_zero_outside_patch
    ⟨some (List.replicate 26 5), none, none⟩ 2 3 demoFrame none true 1 false 26 10
    (by omega)

/-- C5: in every probe/commit run that reaches the commit step and whose
post-`SET_CUR` readback succeeds, the byte string written to
SET_CUR(VS_COMMIT) is byte-equal to the negotiated byte string read back via
GET_CUR(VS_PROBE) — sent verbatim, without modification. -/
theorem commit_sends_negotiated_verbatim (resp : DeviceResponses)
    (format_index frame_index : ℕ) (frame : FrameInfo) (frame_rate : Option ℚ)
    (bm_hint : ℕ) (strict_interval : Bool) (length : ℕ) (b : List ℕ)
    (hread : resp.getCurAfterSet = some b) :
    (performProbeCommitWithLength resp format_index frame_index frame frame_rate
        true bm_hint strict_interval length).sentCommit = some b ∧
      (performProbeCommitWithLength resp format_index frame_index frame frame_rate
        true bm_hint strict_interval length).negotiatedBytes = b := by
  unfold performProbeCommitWithLength
  simp [hread]

/-- Witness for `commit_sends_negotiated_verbatim` at a concrete readback. -/
theorem commit_sends_negotiated_verbatim_witness :
    (performProbeCommitWithLength
        ⟨none, none, some [9, 8, 7]⟩ 1 1 demoFrame none true 1 false 26).sentCommit = some [9, 8, 7] ∧
      (performProbeCommitWithLength
        ⟨none, none, some [9, 8, 7]⟩ 1 1 demoFrame none true 1 false 26).negotiatedBytes = [9, 8, 7] :=
  commit_sends_negotiated_verbatim
    ⟨none, none, some [9, 8, 7]⟩ 1 1 demoFrame none 1 false 26 [9, 8, 7] rfl

/-! ### C4: required payload and alternate-setting selection
(`configure_stream` / `StreamingInterface.select_alt_for_payload`) -/

/-- `AltSettingInfo` dataclass. -/
structure AltSettingInfo where
  alternate_setting : ℕ
  endpoint_address : Option ℕ
  endpoint_attributes : Option ℕ
  max_packet_size : ℕ
deriving DecidableEq, Repr

/-- `AltSettingInfo.is_isochronous`: the endpoint transfer type (low two
attribute bits) equals isochronous (1). -/
def AltSettingInfo.is_isochronous (a : AltSettingInfo) : Bool :=
  match a.endpoint_attributes with
  | none => false
  | some attrs => decide (attrs % 4 = 1)

/-- The key order of `sorted(candidates, key=lambda a: a.max_packet_size)`. -/
def altLE (a b : AltSettingInfo) : Prop := a.max_packet_size ≤ b.max_packet_size

instance : DecidableRel altLE := fun _ _ => Nat.decLe _ _

instance : IsTotal AltSettingInfo altLE := ⟨fun _ _ => Nat.le_total _ _⟩

instance : IsTrans AltSettingInfo altLE := ⟨fun _ _ _ => Nat.le_trans⟩

/-- `StreamingInterface.select_alt_for_payload`: among alt settings with a
non-zero `max_packet_size` (no isochronous check), the first in ascending
`max_packet_size` order whose size reaches `required_payload`, else the
largest. -/
def selectAltForPayload (alt_settings : List AltSettingInfo) (required_payload : ℕ) :
    Option AltSettingInfo :=
  let candidates := alt_settings.filter (fun a => a.max_packet_size ≠ 0)
  if candidates = [] then none
  else
    match (List.insertionSort altLE candidates).find?
        (fun a => required_payload ≤ a.max_packet_size) with
    | some a => some a
    | none => pyMaxBy (fun a => (a.max_packet_size : ℤ)) candidates

/-- The `required_payload` computation of `configure_stream`:
`info.get("dwMaxPayloadTransferSize") or frame.max_frame_size`, replaced by
`frame.max_frame_size or 0` when missing or non-positive. -/
def requiredPayloadOf (dwMaxPayloadTransferSize : Option ℕ) (max_frame_size : ℕ) : ℕ :=
  let rp :=
    match dwMaxPayloadTransferSize with
    | some v => if v ≠ 0 then v else max_frame_size
    | none => max_frame_size
  if rp = 0 then max_frame_size else rp

/-- A bulk (non-isochronous) high-bandwidth alternate setting. -/
def bulkAlt : AltSettingInfo :=
  { alternate_setting := 1, endpoint_address := some 129,
    endpoint_attributes := some 2, max_packet_size := 3072 }

/-- C4 counterexample: with `dwMaxPayloadTransferSize = 1500` and
`max_frame_size = 1000000` the code computes `required_payload = 1500`, not
`max(1500, 1000000)`; and the selector happily returns a bulk (non-iso) alt. -/
theorem required_payload_not_max_counterexample :
    requiredPayloadOf (some 1500) 1000000 = 1500 ∧
      (1500 : ℕ) ≠ max 1500 1000000 ∧
      selectAltForPayload [bulkAlt] 1500 = some bulkAlt ∧
      bulkAlt.is_isochronous = false := by
  refine ⟨rfl, by decide, rfl, rfl⟩

theorem find?_sorted_min (l : List AltSettingInfo) (required : ℕ) (a : AltSettingInfo)
    (hs : l.Sorted altLE)
    (hf : l.find? (fun x => required ≤ x.max_packet_size) = some a) :
    ∀ c ∈ l, required ≤ c.max_packet_size → a.max_packet_size ≤ c.max_packet_size := by
  induction l with
  | nil => simp at hf
  | cons x xs ih =>
    simp only [List.find?] at hf
    by_cases hx : required ≤ x.max_packet_size
    · rw [decide_eq_true hx] at hf
      obtain rfl : x = a := by simpa using hf
      intro c hc _
      rcases List.mem_cons.mp hc with rfl | hcm
      · exact le_refl _
      · exact List.rel_of_sorted_cons hs c hcm
    · rw [decide_eq_false hx] at hf
      intro c hc hcq
      rcases List.mem_cons.mp hc with rfl | hcm
      · exact absurd hcq hx
      · exact ih hs.of_cons hf c hcm hcq

/-- C4 amended: `required_payload` is `dwMaxPayloadTransferSize` itself when
present and positive (falling back to `max_frame_size`), not the maximum of
the two; and with no explicit alt id the selection considers every alt with a
non-zero `max_packet_size` (isochronous or not), returning one that reaches
the required payload with the smallest `max_packet_size` when any does, and
one of maximal `max_packet_size` otherwise. -/
theorem select_alt_for_payload_amended :
    (∀ dw mfs : ℕ, 0 < dw → requiredPayloadOf (some dw) mfs = dw) ∧
    (∀ mfs : ℕ, requiredPayloadOf none mfs = mfs) ∧
    (∀ (alts : List AltSettingInfo) (required : ℕ),
      (∃ c ∈ alts, c.max_packet_size ≠ 0) →
        ∃ a, selectAltForPayload alts required = some a) ∧
    (∀ (alts : List AltSettingInfo) (required : ℕ) (a : AltSettingInfo),
      selectAltForPayload alts required = some a →
        a ∈ alts ∧ a.max_packet_size ≠ 0 ∧
        ((∃ c ∈ alts, c.max_packet_size ≠ 0 ∧ required ≤ c.max_packet_size) →
          required ≤ a.max_packet_size ∧
            ∀ c ∈ alts, c.max_packet_size ≠ 0 → required ≤ c.max_packet_size →
              a.max_packet_size ≤ c.max_packet_size) ∧
        ((∀ c ∈ alts, c.max_packet_size ≠ 0 → c.max_packet_size < required) →
          ∀ c ∈ alts, c.max_packet_size ≠ 0 → c.max_packet_size ≤ a.max_packet_size)) := by
  refine ⟨?_, ?_, ?_, ?_⟩
  · intro dw mfs hdw
    have h : dw ≠ 0 := by omega
    simp [requiredPayloadOf, h]
  · intro mfs
    unfold requiredPayloadOf
    by_cases h : mfs = 0
    · simp [h]
    · simp [h]
  · intro alts required hex
    obtain ⟨c, hcm, hcnz⟩ := hex
    have hcand : c ∈ alts.filter (fun a => a.max_packet_size ≠ 0) := by
      rw [List.mem_filter]
      exact ⟨hcm, by simpa using hcnz⟩
    have hne : alts.filter (fun a => a.max_packet_size ≠ 0) ≠ [] :=
      List.ne_nil_of_mem hcand
    unfold selectAltForPayload
    rw [if_neg hne]
    rcases hfind : (List.insertionSort altLE
        (alts.filter (fun a => a.max_packet_size ≠ 0))).find?
        (fun a => required ≤ a.max_packet_size) with _ | b
    · obtain ⟨r, hr, _, _⟩ :=
        pyMaxBy_spec (fun a : AltSettingInfo => (a.max_packet_size : ℤ)) _ hne
      exact ⟨r, by rw [hfind]; simpa using hr⟩
    · exact ⟨b, by rw [hfind]⟩
  · intro alts required a hsel
    unfold selectAltForPayload at hsel
    set candidates := alts.filter (fun x => x.max_packet_size ≠ 0) with hcanddef
    by_cases hne : candidates = []
    · rw [if_pos hne] at hsel
      exact absurd hsel (by simp)
    rw [if_neg hne] at hsel
    have hperm : List.Perm (List.insertionSort altLE candidates) candidates :=
      List.perm_insertionSort _ _
    have hsorted : (List.insertionSort altLE candidates).Sorted altLE :=
      List.sorted_insertionSort _ _
    have hmem_cand : ∀ x, x ∈ candidates → x ∈ alts ∧ x.max_packet_size ≠ 0 := by
      intro x hx
      rw [hcanddef, List.mem_filter] at hx
      exact ⟨hx.1, by simpa using hx.2⟩
    rcases hfind : (List.insertionSort altLE candidates).find?
        (fun x => required ≤ x.max_packet_size) with _ | b
    · rw [hfind] at hsel
      simp only at hsel
      have hnoq : ∀ x ∈ candidates, ¬ required ≤ x.max_packet_size := by
        intro x hx
        have hx2 : x ∈ List.insertionSort altLE candidates := hperm.mem_iff.mpr hx
        have := List.find?_eq_none.mp hfind x hx2
        simpa using this
      obtain ⟨r, hr, hrm, hrmax⟩ :=
        pyMaxBy_spec (fun x : AltSettingInfo => (x.max_packet_size : ℤ)) _ hne
      rw [hr] at hsel
      obtain rfl : r = a := by simpa using hsel
      obtain ⟨ham, hanz⟩ := hmem_cand r hrm
      refine ⟨ham, hanz, ?_, ?_⟩
      · intro hex
        obtain ⟨c, hcm, hcnz, hcq⟩ := hex
        have : c ∈ candidates := by
          rw [hcanddef, List.mem_filter]
          exact ⟨hcm, by simpa using hcnz⟩
        exact absurd hcq (hnoq c this)
      · intro _ c hcm hcnz
        have hc : c ∈ candidates := by
          rw [hcanddef, List.mem_filter]
          exact ⟨hcm, by simpa using hcnz⟩
        exact_mod_cast hrmax c hc
    · rw [hfind] at hsel
      simp only at hsel
      obtain rfl : b = a := by simpa using hsel
      have haq : required ≤ b.max_packet_size := by
        simpa using List.find?_some hfind
      have ham_sorted : b ∈ List.insertionSort altLE candidates :=
        List.mem_of_find?_eq_some hfind
      have ham_cand : b ∈ candidates := hperm.mem_iff.mp ham_sorted
      obtain ⟨ham, hanz⟩ := hmem_cand b ham_cand
      refine ⟨ham, hanz, ?_, ?_⟩
      · intro _
        refine ⟨haq, ?_⟩
        intro c hcm hcnz hcq
        have hc : c ∈ candidates := by
          rw [hcanddef, List.mem_filter]
          exact ⟨hcm, by simpa using hcnz⟩
        exact find?_sorted_min _ required b hsorted hfind c (hperm.mem_iff.mpr hc) hcq
      · intro hall
        exact absurd haq (by simpa using hall b ham hanz)

/-- Witness for `select_alt_for_payload_amended`: the spec's alt-selection
scenario — alts of packet sizes {1024, 2048, 3072} and required payload 1500
select the 2048-byte alt. -/
theorem select_alt_for_payload_amended_witness :
    requiredPayloadOf (some 1500) 0 = 1500 ∧
      selectAltForPayload
        [⟨1, some 129, some 5, 1024⟩, ⟨2, some 129, some 5, 2048⟩,
         ⟨3, some 129, some 5, 3072⟩] 1500 = some ⟨2, some 129, some 5, 2048⟩ ∧
      (1500 : ℕ) ≤ 2048 := by
  refine ⟨select_alt_for_payload_amended.1 1500 0 (by omega), ?_, ?_⟩
  · rfl
  · have h := (select_alt_for_payload_amended.2.2.2
      [⟨1, some 129, some 5, 1024⟩, ⟨2, some 129, some 5, 2048⟩,
       ⟨3, some 129, some 5, 3072⟩] 1500 ⟨2, some 129, some 5, 2048⟩ (by rfl)).2.2.1
      ⟨⟨2, some 129, some 5, 2048⟩, by simp, by simp, by decide⟩
    exact h.1

/-! ### C2 and C10: the frame-stream assembler
(`FrameStream._on_packet` / `FrameStream._finalize_frame`) -/

/-- `CapturedFrame` (the fields produced by `FrameStream._finalize_frame`). -/
structure CapturedFrame where
  payload : List ℕ
  fid : ℕ
  pts : Option ℕ
  sequence : ℕ
deriving DecidableEq, Repr

/-- The mutable assembler state of a `FrameStream`. -/
structure FrameStreamState where
  frameBytes : List ℕ
  currentFid : Option ℕ
  frameError : Bool
  currentPts : Option ℕ
  skipInitial : ℕ
  sequence : ℕ
  expectedSize : Option ℕ
deriving DecidableEq, Repr

/-- `FrameStream._finalize_frame`: deliver the in-flight frame when it is
error-free and non-empty (consuming a skip credit first), then reset the
in-flight state. -/
def finalizeFrame (s : FrameStreamState) : FrameStreamState × Option CapturedFrame :=
  match s.currentFid with
  | none => (s, none)
  | some fid =>
    if s.frameError = false ∧ s.frameBytes ≠ [] then
      if 0 < s.skipInitial then
        ({ s with
            skipInitial := s.skipInitial - 1
            frameBytes := []
            frameError := false
            currentFid := none
            currentPts := none }, none)
      else
        ({ s with
            sequence := s.sequence + 1
            frameBytes := []
            frameError := false
            currentFid := none
            currentPts := none },
         some { payload := s.frameBytes, fid := fid, pts := s.currentPts,
                sequence := s.sequence + 1 })
    else
      ({ s with
          frameBytes := []
          frameError := false
          currentFid := none
          currentPts := none }, none)

/-- PTS extraction of `_on_packet`: bytes 2..6 little-endian when bit 2 of the
flags is set and the header is at least 6 bytes. -/
def ptsStep (s : FrameStreamState) (packet : List ℕ) (headerLen flags : ℕ) :
    FrameStreamState :=
  if flags.testBit 2 ∧ 6 ≤ headerLen then
    { s with currentPts := some (leBytesToNat ((packet.drop 2).take 4)) }
  else s

/-- FID bookkeeping of `_on_packet`: start the first frame, or finalize on a
FID toggle and adopt the new FID. -/
def fidStep (s : FrameStreamState) (fid : ℕ) (err : Bool) :
    FrameStreamState × List CapturedFrame :=
  match s.currentFid with
  | none => ({ s with currentFid := some fid, frameBytes := [], frameError := err }, [])
  | some cf =>
    if fid ≠ cf then
      ({ (finalizeFrame s).1 with currentFid := some fid }, (finalizeFrame s).2.toList)
    else (s, [])

/-- `if err: self._frame_error = True`. -/
def errStep (s : FrameStreamState) (err : Bool) : FrameStreamState :=
  if err then { s with frameError := true } else s

/-- `if payload: self._frame_bytes.extend(payload)`. -/
def appendStep (s : FrameStreamState) (payload : List ℕ) : FrameStreamState :=
  if payload ≠ [] then { s with frameBytes := s.frameBytes ++ payload } else s

/-- Flag the frame as errored when the accumulated bytes exceed a known
expected size. -/
def sizeCheckStep (s : FrameStreamState) : FrameStreamState :=
  match s.expectedSize with
  | some n => if n < s.frameBytes.length then { s with frameError := true } else s
  | none => s

/-- `if eof: self._finalize_frame("eof")`. -/
def eofStep (s : FrameStreamState) (eof : Bool) : FrameStreamState × List CapturedFrame :=
  if eof then ((finalizeFrame s).1, (finalizeFrame s).2.toList) else (s, [])

/-- `FrameStream._on_packet`: parse the 2+-byte payload header, track the FID
toggle, PTS, error and EOF bits, accumulate the payload, flag oversize frames
as errored, and finalize on FID toggle and on EOF. -/
def onPacket (s : FrameStreamState) (packet : List ℕ) :
    FrameStreamState × List CapturedFrame :=
  match packet with
  | [] => (s, [])
  | headerLen :: _ =>
    if headerLen < 2 ∨ packet.length < headerLen then
      ({ s with frameError := true }, [])
    else
      let flags := packet.getD 1 0
      let payload := packet.drop headerLen
      let s1 := ptsStep s packet headerLen flags
      let r1 := fidStep s1 (flags % 2) (flags.testBit 6)
      let s2 := errStep r1.1 (flags.testBit 6)
      let s3 := appendStep s2 payload
      let s4 := sizeCheckStep s3
      let r2 := eofStep s4 (flags.testBit 1)
      (r2.1, r1.2 ++ r2.2)

/-- Feed a sequence of payload packets through the assembler, collecting every
frame it delivers, in order. -/
def runPackets (s : FrameStreamState) : List (List ℕ) → FrameStreamState × List CapturedFrame
  | [] => (s, [])
  | p :: rest =>
    let r1 := onPacket s p
    let r2 := runPackets r1.1 rest
    (r2.1, r1.2 ++ r2.2)

/-- The assembler state of a freshly opened `FrameStream` (`skip_initial`
defaults to 2 in `UVCCamera.stream`; `expected_size` is `None` for
MJPEG-like formats and the frame's size otherwise). -/
def initState (skip_initial : ℕ) (expected_size : Option ℕ) : FrameStreamState :=
  { frameBytes := [], currentFid := none, frameError := false, currentPts := none,
    skipInitial := skip_initial, sequence := 0, expectedSize := expected_size }

/-- Invariant: an error-free in-flight frame never exceeds a known expected
size. -/
def SizeOk (s : FrameStreamState) : Prop :=
  ∀ n, s.expectedSize = some n → s.frameError = false → s.frameBytes.length ≤ n

theorem finalizeFrame_size (s : FrameStreamState) (hs : SizeOk s) :
    SizeOk (finalizeFrame s).1 ∧ (finalizeFrame s).1.expectedSize = s.expectedSize ∧
      ∀ fr ∈ (finalizeFrame s).2.toList,
        fr.payload ≠ [] ∧ ∀ n, s.expectedSize = some n → fr.payload.length ≤ n := by
  unfold finalizeFrame
  rcases hfid : s.currentFid with _ | fid
  · exact ⟨hs, rfl, by simp⟩
  · simp only []
    by_cases hgood : s.frameError = false ∧ s.frameBytes ≠ []
    · rw [if_pos hgood]
      by_cases hskip : 0 < s.skipInitial
      · rw [if_pos hskip]
        refine ⟨?_, rfl, by simp⟩
        intro n _ _
        simp
      · rw [if_neg hskip]
        refine ⟨?_, rfl, ?_⟩
        · intro n _ _
          simp
        · intro fr hfr
          simp only [Option.toList_some, List.mem_singleton] at hfr
          subst hfr
          exact ⟨hgood.2, fun n hn => hs n hn hgood.1⟩
    · rw [if_neg hgood]
      refine ⟨?_, rfl, by simp⟩
      intro n _ _
      simp

theorem ptsStep_fields (s : FrameStreamState) (packet : List ℕ) (headerLen flags : ℕ) :
    (ptsStep s packet headerLen flags).frameBytes = s.frameBytes ∧
      (ptsStep s packet headerLen flags).frameError = s.frameError ∧
      (ptsStep s packet headerLen flags).currentFid = s.currentFid ∧
      (ptsStep s packet headerLen flags).expectedSize = s.expectedSize ∧
      (ptsStep s packet headerLen flags).skipInitial = s.skipInitial ∧
      (ptsStep s packet headerLen flags).sequence = s.sequence := by
  unfold ptsStep
  split <;> simp

theorem ptsStep_size (s : FrameStreamState) (packet : List ℕ) (headerLen flags : ℕ)
    (hs : SizeOk s) : SizeOk (ptsStep s packet headerLen flags) := by
  unfold ptsStep
  split
  · intro n hn he
    exact hs n hn he
  · exact hs

theorem fidStep_size (s : FrameStreamState) (fid : ℕ) (err : Bool) (hs : SizeOk s) :
    SizeOk (fidStep s fid err).1 ∧ (fidStep s fid err).1.expectedSize = s.expectedSize ∧
      ∀ fr ∈ (fidStep s fid err).2,
        fr.payload ≠ [] ∧ ∀ n, s.expectedSize = some n → fr.payload.length ≤ n := by
  unfold fidStep
  rcases hfid : s.currentFid with _ | cf
  · refine ⟨?_, rfl, by simp⟩
    intro n hn _
    simp
  · simp only []
    by_cases htog : fid ≠ cf
    · rw [if_pos htog]
      obtain ⟨h1, h2, h3⟩ := finalizeFrame_size s hs
      refine ⟨?_, by simpa using h2, by simpa using h3⟩
      intro n hn he
      simp only [] at hn he ⊢
      exact h1 n (by simpa using hn) (by simpa using he)
    · rw [if_neg htog]
      exact ⟨hs, rfl, by simp⟩

theorem errStep_size (s : FrameStreamState) (err : Bool) (hs : SizeOk s) :
    SizeOk (errStep s err) ∧ (errStep s err).expectedSize = s.expectedSize := by
  unfold errStep
  split
  · refine ⟨?_, rfl⟩
    intro n hn he
    simp at he
  · exact ⟨hs, rfl⟩

theorem appendStep_fields (s : FrameStreamState) (payload : List ℕ) :
    (appendStep s payload).expectedSize = s.expectedSize ∧
      (appendStep s payload).frameError = s.frameError := by
  unfold appendStep
  split <;> simp

theorem sizeCheckStep_size (s : FrameStreamState) :
    SizeOk (sizeCheckStep s) ∧ (sizeCheckStep s).expectedSize = s.expectedSize := by
  obtain ⟨b, cf, fe, cp, k, q, es⟩ := s
  rcases es with _ | n
  · refine ⟨?_, rfl⟩
    intro n hn _
    simp [sizeCheckStep] at hn
  · by_cases hover : n < b.length
    · refine ⟨?_, by simp [sizeCheckStep, hover]⟩
      intro m hm he
      simp [sizeCheckStep, hover] at he
    · refine ⟨?_, by simp [sizeCheckStep, hover]⟩
      intro m hm _
      simp [sizeCheckStep, hover] at hm ⊢
      omega

theorem eofStep_size (s : FrameStreamState) (eof : Bool) (hs : SizeOk s) :
    SizeOk (eofStep s eof).1 ∧ (eofStep s eof).1.expectedSize = s.expectedSize ∧
      ∀ fr ∈ (eofStep s eof).2,
        fr.payload ≠ [] ∧ ∀ n, s.expectedSize = some n → fr.payload.length ≤ n := by
  unfold eofStep
  split
  · exact finalizeFrame_size s hs
  · exact ⟨hs, rfl, by simp⟩

theorem onPacket_size (s : FrameStreamState) (p : List ℕ) (hs : SizeOk s) :
    SizeOk (onPacket s p).1 ∧ (onPacket s p).1.expectedSize = s.expectedSize ∧
      ∀ fr ∈ (onPacket s p).2,
        fr.payload ≠ [] ∧ ∀ n, s.expectedSize = some n → fr.payload.length ≤ n := by
  rcases p with _ | ⟨headerLen, rest⟩
  · exact ⟨hs, rfl, by simp [onPacket]⟩
  show SizeOk (onPacket s (headerLen :: rest)).1 ∧ _
  simp only [onPacket]
  by_cases hbad : headerLen < 2 ∨ (headerLen :: rest).length < headerLen
  · rw [if_pos hbad]
    refine ⟨?_, rfl, by simp⟩
    intro n hn he
    simp at he
  rw [if_neg hbad]
  simp only []
  set flags := (headerLen :: rest).getD 1 0 with hflags
  set payload := (headerLen :: rest).drop headerLen with hpayload
  set s1 := ptsStep s (headerLen :: rest) headerLen flags with hs1
  have hpts := ptsStep_fields s (headerLen :: rest) headerLen flags
  have hs1ok : SizeOk s1 := ptsStep_size s _ _ _ hs
  have hs1es : s1.expectedSize = s.expectedSize := hpts.2.2.2.1
  set r1 := fidStep s1 (flags % 2) (flags.testBit 6) with hr1
  obtain ⟨h2ok, h2es, h2out⟩ := fidStep_size s1 (flags % 2) (flags.testBit 6) hs1ok
  set s2 := errStep r1.1 (flags.testBit 6) with hs2
  obtain ⟨h3ok, h3es⟩ := errStep_size r1.1 (flags.testBit 6) h2ok
  set s3 := appendStep s2 payload with hs3
  have h4es : s3.expectedSize = s2.expectedSize := (appendStep_fields s2 payload).1
  set s4 := sizeCheckStep s3 with hs4
  obtain ⟨h5ok, h5es⟩ := sizeCheckStep_size s3
  obtain ⟨h6ok, h6es, h6out⟩ := eofStep_size s4 (flags.testBit 1) h5ok
  have heseq : s4.expectedSize = s.expectedSize := by
    rw [h5es, h4es, h3es, h2es, hs1es]
  refine ⟨h6ok, by rw [h6es, heseq], ?_⟩
  intro fr hfr
  rcases List.mem_append.mp hfr with hmem | hmem
  · have := h2out fr hmem
    rw [hs1es] at this
    exact this
  · have := h6out fr hmem
    rw [heseq] at this
    exact this

theorem runPackets_size (pkts : List (List ℕ)) :
    ∀ s : FrameStreamState, SizeOk s →
      SizeOk (runPackets s pkts).1 ∧ (runPackets s pkts).1.expectedSize = s.expectedSize ∧
        ∀ fr ∈ (runPackets s pkts).2,
          fr.payload ≠ [] ∧ ∀ n, s.expectedSize = some n → fr.payload.length ≤ n := by
  induction pkts with
  | nil =>
    intro s hs
    exact ⟨hs, rfl, by simp [runPackets]⟩
  | cons p rest ih =>
    intro s hs
    obtain ⟨h1ok, h1es, h1out⟩ := onPacket_size s p hs
    obtain ⟨h2ok, h2es, h2out⟩ := ih (onPacket s p).1 h1ok
    unfold runPackets
    refine ⟨h2ok, by rw [h2es, h1es], ?_⟩
    intro fr hfr
    rcases List.mem_append.mp hfr with hmem | hmem
    · exact h1out fr hmem
    · have := h2out fr hmem
      rw [h1es] at this
      exact this

/-- C2 counterexample: with `expected_size = 4` and no skip, a single-packet
frame of 1 payload byte (header `02 02`, EOF set, no error) is DELIVERED with
`len(payload) = 1 ≠ 4` — undersized error-free frames are not dropped. -/
theorem frame_stream_undersize_delivered_counterexample :
    (runPackets (initState 0 (some 4)) [[2, 2, 170]]).2 =
        [{ payload := [170], fid := 0, pts := none, sequence := 1 }] ∧
      ([170] : List ℕ).length ≠ 4 := by
  refine ⟨rfl, by decide⟩

/-- C2 amended: every frame the stream assembler delivers has a non-empty
payload and was finalized with the error flag clear; when `expected_size` is
known the delivered payload length is AT MOST `expected_size` (oversize frames
are flagged and dropped), but undersized error-free frames are still
delivered — only emptiness, the error flag and the oversize check gate
delivery, not equality with `expected_size`. -/
theorem frame_stream_delivered_frames_bounded (pkts : List (List ℕ))
    (skip : ℕ) (expSize : Option ℕ) (fr : CapturedFrame)
    (hfr : fr ∈ (runPackets (initState skip expSize) pkts).2) :
    fr.payload ≠ [] ∧ ∀ n, expSize = some n → fr.payload.length ≤ n := by
  have hinit : SizeOk (initState skip expSize) := by
    intro n _ _
    simp [initState]
  have h := (runPackets_size pkts (initState skip expSize) hinit).2.2 fr hfr
  simpa [initState] using h

/-- Witness for `frame_stream_delivered_frames_bounded` on a two-packet frame
of 3 bytes against `expected_size = 4`. -/
theorem frame_stream_delivered_frames_bounded_witness :
    (⟨[9, 9, 8], 0, none, 1⟩ : CapturedFrame) ∈
        (runPackets (initState 0 (some 4)) [[2, 0, 9, 9], [2, 2, 8]]).2 ∧
      ([9, 9, 8] : List ℕ) ≠ [] ∧ ∀ n, (some 4 : Option ℕ) = some n → ([9, 9, 8] : List ℕ).length ≤ n := by
  have hmem : (⟨[9, 9, 8], 0, none, 1⟩ : CapturedFrame) ∈
      (runPackets (initState 0 (some 4)) [[2, 0, 9, 9], [2, 2, 8]]).2 := by
    rw [show (runPackets (initState 0 (some 4)) [[2, 0, 9, 9], [2, 2, 8]]).2 =
        [⟨[9, 9, 8], 0, none, 1⟩] from rfl]
    exact List.mem_singleton.mpr rfl
  have h := frame_stream_delivered_frames_bounded [[2, 0, 9, 9], [2, 2, 8]] 0 (some 4)
    ⟨[9, 9, 8], 0, none, 1⟩ hmem
  exact ⟨hmem, h.1, h.2⟩

theorem range'_split (a m n : ℕ) :
    List.range' a (m + n) = List.range' a m ++ List.range' (a + m) n := by
  have h := List.range'_append a m n 1
  rw [one_mul] at h
  rw [add_comm m n, ← h]

/-- Sequence bookkeeping: a stage's emitted frames carry consecutive sequence
numbers continuing the state's counter. -/
def SeqOut (s : FrameStreamState) (r : FrameStreamState × List CapturedFrame) : Prop :=
  r.1.sequence = s.sequence + r.2.length ∧
    r.2.map (fun fr => fr.sequence) = List.range' (s.sequence + 1) r.2.length

theorem finalizeFrame_seq (s : FrameStreamState) :
    SeqOut s ((finalizeFrame s).1, (finalizeFrame s).2.toList) := by
  obtain ⟨b, cf, fe, cp, k, q, es⟩ := s
  rcases cf with _ | fid
  · simp [finalizeFrame, SeqOut]
  · by_cases hgood : fe = false ∧ b ≠ []
    · by_cases hk : 0 < k
      · simp [finalizeFrame, hgood, hk, SeqOut]
      · simp [finalizeFrame, hgood, hk, SeqOut, List.range']
    · simp [finalizeFrame, hgood, SeqOut]

theorem fidStep_seq (s : FrameStreamState) (fid : ℕ) (err : Bool) :
    SeqOut s (fidStep s fid err) := by
  unfold fidStep
  rcases hcf : s.currentFid with _ | cf
  · simp [SeqOut]
  · simp only []
    by_cases htog : fid ≠ cf
    · rw [if_pos htog]
      have h := finalizeFrame_seq s
      exact ⟨by simpa using h.1, by simpa using h.2⟩
    · rw [if_neg htog]
      simp [SeqOut]

theorem eofStep_seq (s : FrameStreamState) (eof : Bool) :
    SeqOut s (eofStep s eof) := by
  unfold eofStep
  split
  · exact finalizeFrame_seq s
  · simp [SeqOut]

theorem errStep_ghost (s : FrameStreamState) (err : Bool) :
    (errStep s err).sequence = s.sequence ∧ (errStep s err).skipInitial = s.skipInitial := by
  unfold errStep
  split <;> simp

theorem appendStep_ghost (s : FrameStreamState) (payload : List ℕ) :
    (appendStep s payload).sequence = s.sequence ∧
      (appendStep s payload).skipInitial = s.skipInitial := by
  unfold appendStep
  split <;> simp

theorem sizeCheckStep_ghost (s : FrameStreamState) :
    (sizeCheckStep s).sequence = s.sequence ∧
      (sizeCheckStep s).skipInitial = s.skipInitial := by
  obtain ⟨b, cf, fe, cp, k, q, es⟩ := s
  rcases es with _ | n
  · simp [sizeCheckStep]
  · by_cases hover : n < b.length <;> simp [sizeCheckStep, hover]

theorem onPacket_seq (s : FrameStreamState) (p : List ℕ) : SeqOut s (onPacket s p) := by
  rcases p with _ | ⟨headerLen, rest⟩
  · simp [onPacket, SeqOut]
  show SeqOut s (onPacket s (headerLen :: rest))
  simp only [onPacket]
  by_cases hbad : headerLen < 2 ∨ (headerLen :: rest).length < headerLen
  · rw [if_pos hbad]
    simp [SeqOut]
  rw [if_neg hbad]
  set flags := (headerLen :: rest).getD 1 0 with hflags
  set payload := (headerLen :: rest).drop headerLen with hpayload
  set s1 := ptsStep s (headerLen :: rest) headerLen flags with hs1
  have hseq1 : s1.sequence = s.sequence :=
    (ptsStep_fields s (headerLen :: rest) headerLen flags).2.2.2.2.2
  set r1 := fidStep s1 (flags % 2) (flags.testBit 6) with hr1
  have h1 := fidStep_seq s1 (flags % 2) (flags.testBit 6)
  rw [← hr1] at h1
  set s2 := errStep r1.1 (flags.testBit 6) with hs2
  set s3 := appendStep s2 payload with hs3
  set s4 := sizeCheckStep s3 with hs4
  have hseq4 : s4.sequence = r1.1.sequence := by
    rw [(sizeCheckStep_ghost s3).1, (appendStep_ghost s2 payload).1,
      (errStep_ghost r1.1 (flags.testBit 6)).1]
  have h2 := eofStep_seq s4 (flags.testBit 1)
  constructor
  · show (eofStep s4 (flags.testBit 1)).1.sequence = s.sequence + (r1.2 ++ _).length
    rw [h2.1, hseq4, h1.1, hseq1]
    simp only [List.length_append]
    omega
  · show (r1.2 ++ (eofStep s4 (flags.testBit 1)).2).map (fun fr => fr.sequence) = _
    rw [List.map_append, h1.2, h2.2, hseq4, h1.1, hseq1]
    simp only [List.length_append]
    rw [range'_split (s.sequence + 1) r1.2.length (eofStep s4 (flags.testBit 1)).2.length]
    congr 2
    omega

theorem runPackets_seq (pkts : List (List ℕ)) :
    ∀ s : FrameStreamState, SeqOut s (runPackets s pkts) := by
  induction pkts with
  | nil =>
    intro s
    simp [runPackets, SeqOut]
  | cons p rest ih =>
    intro s
    have h1 := onPacket_seq s p
    have h2 := ih (onPacket s p).1
    unfold runPackets
    constructor
    · show (runPackets (onPacket s p).1 rest).1.sequence = _
      rw [h2.1, h1.1]
      simp only [List.length_append]
      omega
    · show ((onPacket s p).2 ++ (runPackets (onPacket s p).1 rest).2).map
          (fun fr => fr.sequence) = _
      rw [List.map_append, h1.2, h2.2, h1.1]
      simp only [List.length_append]
      rw [range'_split (s.sequence + 1) (onPacket s p).2.length
        (runPackets (onPacket s p).1 rest).2.length]
      congr 2
      omega

/-- The delivery-relevant content of a captured frame (everything except the
sequence number). -/
def frameCore (fr : CapturedFrame) : List ℕ × ℕ × Option ℕ := (fr.payload, fr.fid, fr.pts)

/-- Equality of the assembler-state fields that drive control flow (everything
except the skip credit and the sequence counter). -/
def CoreEq (s t : FrameStreamState) : Prop :=
  s.frameBytes = t.frameBytes ∧ s.currentFid = t.currentFid ∧
    s.frameError = t.frameError ∧ s.currentPts = t.currentPts ∧
    s.expectedSize = t.expectedSize

theorem finalizeFrame_sim (s0 s1 : FrameStreamState) (hc : CoreEq s1 s0)
    (h0 : s0.skipInitial = 0) :
    CoreEq (finalizeFrame s1).1 (finalizeFrame s0).1 ∧
      (finalizeFrame s0).1.skipInitial = 0 ∧
      (finalizeFrame s1).1.skipInitial =
        s1.skipInitial - (finalizeFrame s0).2.toList.length ∧
      (finalizeFrame s1).2.toList.map frameCore =
        ((finalizeFrame s0).2.toList.map frameCore).drop s1.skipInitial := by
  obtain ⟨b0, cf0, fe0, cp0, k0, q0, es0⟩ := s0
  obtain ⟨b1, cf1, fe1, cp1, k1, q1, es1⟩ := s1
  obtain ⟨hb, hcf, hfe, hcp, hes⟩ := hc
  simp only [] at hb hcf hfe hcp hes h0
  subst hb hcf hfe hcp hes h0
  rcases cf1 with _ | fid
  · simp [finalizeFrame, CoreEq]
  · by_cases hgood : fe1 = false ∧ b1 ≠ []
    · by_cases hk : 0 < k1
      · have hdrop : ∀ x : List ℕ × ℕ × Option ℕ, List.drop k1 [x] = [] := by
          intro x
          exact List.drop_eq_nil_of_le (by simpa using hk)
        simp [finalizeFrame, hgood, hk, CoreEq, frameCore, hdrop]
      · have hk0 : k1 = 0 := by omega
        subst hk0
        simp [finalizeFrame, hgood, CoreEq, frameCore]
    · simp [finalizeFrame, hgood, CoreEq]

theorem ptsStep_sim (s0 s1 : FrameStreamState) (hc : CoreEq s1 s0)
    (packet : List ℕ) (headerLen flags : ℕ) :
    CoreEq (ptsStep s1 packet headerLen flags) (ptsStep s0 packet headerLen flags) := by
  obtain ⟨hb, hcf, hfe, hcp, hes⟩ := hc
  unfold ptsStep
  split <;> exact ⟨by simpa using hb, by simpa using hcf, by simpa using hfe,
    by simp [hcp], by simpa using hes⟩

theorem fidStep_sim (s0 s1 : FrameStreamState) (hc : CoreEq s1 s0)
    (h0 : s0.skipInitial = 0) (fid : ℕ) (err : Bool) :
    CoreEq (fidStep s1 fid err).1 (fidStep s0 fid err).1 ∧
      (fidStep s0 fid err).1.skipInitial = 0 ∧
      (fidStep s1 fid err).1.skipInitial =
        s1.skipInitial - (fidStep s0 fid err).2.length ∧
      (fidStep s1 fid err).2.map frameCore =
        ((fidStep s0 fid err).2.map frameCore).drop s1.skipInitial := by
  have hcf0 : s1.currentFid = s0.currentFid := hc.2.1
  unfold fidStep
  rcases hcf : s0.currentFid with _ | cf
  · rw [hcf0, hcf]
    obtain ⟨hb, _, hfe, hcp, hes⟩ := hc
    exact ⟨⟨by simp, by simp, by simp, by simpa using hcp, by simpa using hes⟩,
      by simpa using h0, by simp, by simp⟩
  · rw [hcf0, hcf]
    simp only []
    by_cases htog : fid ≠ cf
    · rw [if_pos htog, if_pos htog]
      obtain ⟨hsim, hz, hskip, hout⟩ := finalizeFrame_sim s0 s1 hc h0
      obtain ⟨fb, fcf, ffe, fcp, fes⟩ := hsim
      refine ⟨⟨by simpa using fb, by simp, by simpa using ffe,
        by simpa using fcp, by simpa using fes⟩, by simpa using hz,
        by simpa using hskip, by simpa using hout⟩
    · rw [if_neg htog, if_neg htog]
      exact ⟨hc, by simpa using h0, by simp, by simp⟩

theorem errStep_sim (s0 s1 : FrameStreamState) (hc : CoreEq s1 s0) (err : Bool) :
    CoreEq (errStep s1 err) (errStep s0 err) := by
  obtain ⟨hb, hcf, hfe, hcp, hes⟩ := hc
  unfold errStep
  split <;> exact ⟨by simpa using hb, by simpa using hcf, by simp [hfe],
    by simpa using hcp, by simpa using hes⟩

theorem appendStep_sim (s0 s1 : FrameStreamState) (hc : CoreEq s1 s0)
    (payload : List ℕ) :
    CoreEq (appendStep s1 payload) (appendStep s0 payload) := by
  obtain ⟨hb, hcf, hfe, hcp, hes⟩ := hc
  unfold appendStep
  split <;> exact ⟨by simp [hb], by simpa using hcf, by simpa using hfe,
    by simpa using hcp, by simpa using hes⟩

theorem sizeCheckStep_sim (s0 s1 : FrameStreamState) (hc : CoreEq s1 s0) :
    CoreEq (sizeCheckStep s1) (sizeCheckStep s0) := by
  obtain ⟨hb, hcf, hfe, hcp, hes⟩ := hc
  unfold sizeCheckStep
  rw [hes, hb]
  rcases s0.expectedSize with _ | n
  · exact ⟨hb, hcf, hfe, hcp, hes⟩
  · simp only []
    split
    · exact ⟨by simp [hb], by simp [hcf], by simp, by simp [hcp], by simp [hes]⟩
    · exact ⟨hb, hcf, hfe, hcp, hes⟩

theorem eofStep_sim (s0 s1 : FrameStreamState) (hc : CoreEq s1 s0)
    (h0 : s0.skipInitial = 0) (eof : Bool) :
    CoreEq (eofStep s1 eof).1 (eofStep s0 eof).1 ∧
      (eofStep s0 eof).1.skipInitial = 0 ∧
      (eofStep s1 eof).1.skipInitial = s1.skipInitial - (eofStep s0 eof).2.length ∧
      (eofStep s1 eof).2.map frameCore =
        ((eofStep s0 eof).2.map frameCore).drop s1.skipInitial := by
  unfold eofStep
  split
  · obtain ⟨hsim, hz, hskip, hout⟩ := finalizeFrame_sim s0 s1 hc h0
    exact ⟨hsim, hz, by simpa using hskip, by simpa using hout⟩
  · exact ⟨hc, by simpa using h0, by simp, by simp⟩

theorem onPacket_sim (s0 s1 : FrameStreamState) (hc : CoreEq s1 s0)
    (h0 : s0.skipInitial = 0) (p : List ℕ) :
    CoreEq (onPacket s1 p).1 (onPacket s0 p).1 ∧
      (onPacket s0 p).1.skipInitial = 0 ∧
      (onPacket s1 p).1.skipInitial = s1.skipInitial - (onPacket s0 p).2.length ∧
      (onPacket s1 p).2.map frameCore =
        ((onPacket s0 p).2.map frameCore).drop s1.skipInitial := by
  rcases p with _ | ⟨headerLen, rest⟩
  · exact ⟨hc, by simpa using h0, by simp [onPacket], by simp [onPacket]⟩
  show CoreEq (onPacket s1 (headerLen :: rest)).1 (onPacket s0 (headerLen :: rest)).1 ∧ _
  simp only [onPacket]
  by_cases hbad : headerLen < 2 ∨ (headerLen :: rest).length < headerLen
  · rw [if_pos hbad, if_pos hbad]
    obtain ⟨hb, hcf, hfe, hcp, hes⟩ := hc
    exact ⟨⟨by simpa using hb, by simpa using hcf, by simp, by simpa using hcp,
      by simpa using hes⟩, by simpa using h0, by simp, by simp⟩
  rw [if_neg hbad, if_neg hbad]
  set fl := (headerLen :: rest).getD 1 0 with hfl
  set pl := (headerLen :: rest).drop headerLen with hpl
  set A0 := ptsStep s0 (headerLen :: rest) headerLen fl with hA0
  set A1 := ptsStep s1 (headerLen :: rest) headerLen fl with hA1
  set B0 := fidStep A0 (fl % 2) (fl.testBit 6) with hB0
  set B1 := fidStep A1 (fl % 2) (fl.testBit 6) with hB1
  set C0 := errStep B0.1 (fl.testBit 6) with hC0
  set C1 := errStep B1.1 (fl.testBit 6) with hC1
  set D0 := appendStep C0 pl with hD0
  set D1 := appendStep C1 pl with hD1
  set E0 := sizeCheckStep D0 with hE0
  set E1 := sizeCheckStep D1 with hE1
  have hA1skip : A1.skipInitial = s1.skipInitial := by
    rw [hA1]
    exact (ptsStep_fields s1 _ _ _).2.2.2.2.1
  have hA0skip : A0.skipInitial = 0 := by
    rw [hA0, (ptsStep_fields s0 _ _ _).2.2.2.2.1]
    exact h0
  have hpts : CoreEq A1 A0 := by
    rw [hA1, hA0]
    exact ptsStep_sim s0 s1 hc _ _ _
  have hfid := fidStep_sim A0 A1 hpts hA0skip (fl % 2) (fl.testBit 6)
  rw [← hB0, ← hB1] at hfid
  have herr : CoreEq C1 C0 := by
    rw [hC1, hC0]
    exact errStep_sim B0.1 B1.1 hfid.1 _
  have happ : CoreEq D1 D0 := by
    rw [hD1, hD0]
    exact appendStep_sim C0 C1 herr _
  have hsize : CoreEq E1 E0 := by
    rw [hE1, hE0]
    exact sizeCheckStep_sim D0 D1 happ
  have hE1skip : E1.skipInitial = B1.1.skipInitial := by
    rw [hE1, hD1, hC1, (sizeCheckStep_ghost _).2, (appendStep_ghost _ _).2,
      (errStep_ghost _ _).2]
  have hE0skip : E0.skipInitial = 0 := by
    rw [hE0, hD0, hC0, (sizeCheckStep_ghost _).2, (appendStep_ghost _ _).2,
      (errStep_ghost _ _).2]
    exact hfid.2.1
  have heof := eofStep_sim E0 E1 hsize hE0skip (fl.testBit 1)
  refine ⟨heof.1, heof.2.1, ?_, ?_⟩
  · show (eofStep E1 (fl.testBit 1)).1.skipInitial =
      s1.skipInitial - (B0.2 ++ (eofStep E0 (fl.testBit 1)).2).length
    have h1 := heof.2.2.1
    have h2 := hfid.2.2.1
    rw [hE1skip] at h1
    rw [hA1skip] at h2
    rw [h1, h2]
    simp only [List.length_append]
    omega
  · show (B1.2 ++ (eofStep E1 (fl.testBit 1)).2).map frameCore =
      ((B0.2 ++ (eofStep E0 (fl.testBit 1)).2).map frameCore).drop s1.skipInitial
    rw [List.map_append, List.map_append, List.drop_append_eq_append_drop]
    have hout1 := hfid.2.2.2
    rw [hA1skip] at hout1
    have hout2 := heof.2.2.2
    have hE1s : E1.skipInitial = s1.skipInitial - B0.2.length := by
      rw [hE1skip]
      have := hfid.2.2.1
      rw [hA1skip] at this
      exact this
    rw [hout1, hout2, hE1s, List.length_map]

theorem runPackets_sim (pkts : List (List ℕ)) :
    ∀ s0 s1 : FrameStreamState, CoreEq s1 s0 → s0.skipInitial = 0 →
      CoreEq (runPackets s1 pkts).1 (runPackets s0 pkts).1 ∧
        (runPackets s0 pkts).1.skipInitial = 0 ∧
        (runPackets s1 pkts).1.skipInitial =
          s1.skipInitial - (runPackets s0 pkts).2.length ∧
        (runPackets s1 pkts).2.map frameCore =
          ((runPackets s0 pkts).2.map frameCore).drop s1.skipInitial := by
  induction pkts with
  | nil =>
    intro s0 s1 hc h0
    exact ⟨hc, by simpa [runPackets] using h0, by simp [runPackets], by simp [runPackets]⟩
  | cons p rest ih =>
    intro s0 s1 hc h0
    obtain ⟨hc1, hz1, hskip1, hout1⟩ := onPacket_sim s0 s1 hc h0 p
    obtain ⟨hc2, hz2, hskip2, hout2⟩ := ih (onPacket s0 p).1 (onPacket s1 p).1 hc1 hz1
    refine ⟨?_, ?_, ?_, ?_⟩
    · show CoreEq (runPackets (onPacket s1 p).1 rest).1 (runPackets (onPacket s0 p).1 rest).1
      exact hc2
    · exact hz2
    · show (runPackets (onPacket s1 p).1 rest).1.skipInitial =
        s1.skipInitial - ((onPacket s0 p).2 ++ (runPackets (onPacket s0 p).1 rest).2).length
      rw [hskip2, hskip1]
      simp only [List.length_append]
      omega
    · show ((onPacket s1 p).2 ++ (runPackets (onPacket s1 p).1 rest).2).map frameCore =
        (((onPacket s0 p).2 ++ (runPackets (onPacket s0 p).1 rest).2).map
          frameCore).drop s1.skipInitial
      rw [List.map_append, List.map_append, List.drop_append_eq_append_drop,
        hout1, hout2, hskip1, List.length_map]

/-- C10: with the default `skip_initial = 2`, the frames the assembler
delivers are exactly the successfully assembled error-free frames minus the
first two, which are silently discarded (payload/fid/pts-wise the delivered
list is the skip-free list with its first two entries dropped); the delivered
sequence numbers are 1, 2, 3, … in order, so the first delivered frame has
sequence 1 and each subsequent one is its predecessor's plus 1. -/
theorem frame_stream_skip_and_sequence (pkts : List (List ℕ)) (expSize : Option ℕ) :
    ((runPackets (initState 2 expSize) pkts).2.map (fun fr => fr.sequence) =
        List.range' 1 (runPackets (initState 2 expSize) pkts).2.length) ∧
      ((runPackets (initState 2 expSize) pkts).2.map frameCore =
        ((runPackets (initState 0 expSize) pkts).2.map frameCore).drop 2) := by
  constructor
  · have h := (runPackets_seq pkts (initState 2 expSize)).2
    simpa [initState] using h
  · have h := (runPackets_sim pkts (initState 0 expSize) (initState 2 expSize)
      (by simp [CoreEq, initState]) (by simp [initState])).2.2.2
    simpa [initState] using h

end LibusbUVC
